/-
Verification of the QICK readout/buffer driver (qick_lib/qick/drivers/readout.py).

We shallowly embed the algorithmic core of the driver: the Nyquist folding and
PFB channel selection of the readout blocks, the collision-checked frequency
assignment of AxisPFBReadoutV2, the range-checked wide assignment of
AxisPFBReadoutV3/V4, the configure/transfer logic of AxisAvgBuffer, and the
arm/get_mem logic of AxisBufferDdrV1.

Conventions:
- Register values are integers (Lean ℤ); lengths and addresses used for list
  slicing are ℕ.
- Python floats are embedded as exact rationals (ℚ); `//` on nonneg-divisor
  rationals is Int.floor, and np.round is round-half-to-even.
- A method that can raise returns `State × Option QickError` (or
  `State × Except QickError α` when it also returns data); when it raises, the
  first component is the object state at the moment of the raise, reflecting
  exactly the attribute writes the Python code performed before raising.
- DMA activity is a collaborator: the byte count the DMA engine reports is a
  parameter, and the preallocated DMA buffer contents are a parameter.
-/
import Mathlib

/-- Error kinds raised by the driver, following the spec's taxonomy.
All of them are RuntimeError in the Python source; the constructor used in the
embedding records which raise site fired. -/
inductive QickError where
  | rangeError
  | collisionError
  | transferError
  | capacityError
deriving DecidableEq, Repr

/-! ## AxisAvgBuffer (readout.py lines 722-1068)

The register file of one avg/raw capture unit. `avg_maxlen`/`buf_maxlen` are
the generics `2**N_AVG` / `2**N_BUF`. -/

structure AvgBufState where
  avg_start_reg : ℤ
  avg_addr_reg : ℤ
  avg_len_reg : ℤ
  avg_dr_start_reg : ℤ
  avg_dr_addr_reg : ℤ
  avg_dr_len_reg : ℤ
  buf_start_reg : ℤ
  buf_addr_reg : ℤ
  buf_len_reg : ℤ
  buf_dr_start_reg : ℤ
  buf_dr_addr_reg : ℤ
  buf_dr_len_reg : ℤ
deriving DecidableEq, Repr

/-- The register state after `__init__` (all start registers cleared; the
window registers have no documented reset value, we take 0). -/
def avgBufInit : AvgBufState :=
  ⟨0, 0, 0, 0, 0, 0, 0, 0, 0, 0, 0, 0⟩

/-- `disable_avg` (line 980): clear the averager start register. -/
def disable_avg (s : AvgBufState) : AvgBufState :=
  { s with avg_start_reg := 0 }

/-- `disable_buf` (line 1064): clear the raw-buffer start register. -/
def disable_buf (s : AvgBufState) : AvgBufState :=
  { s with buf_start_reg := 0 }

/-- `config_avg` (lines 907-921): disable averaging, then record the capture
window. The source performs no range check here. -/
def config_avg (address : ℤ) (length : ℕ) (s : AvgBufState) :
    AvgBufState × Option QickError :=
  let s1 := disable_avg s
  ({ s1 with avg_addr_reg := address, avg_len_reg := (length : ℤ) }, none)

/-- `config_buf` (lines 986-1004): disable buffering, reject
`length >= buf_maxlen`, else record the capture window. -/
def config_buf (buf_maxlen : ℕ) (address : ℤ) (length : ℕ) (s : AvgBufState) :
    AvgBufState × Option QickError :=
  let s1 := disable_buf s
  if length ≥ buf_maxlen then (s1, some QickError.rangeError)
  else ({ s1 with buf_addr_reg := address, buf_len_reg := (length : ℤ) }, none)

/-- `transfer_avg` (lines 923-972). `transferred` is the byte count the DMA
engine reports, `avg_buff` the preallocated DMA buffer, one entry per int64
sample, i.e. one (I, Q) pair. The switch routing is not modelled (it touches a
collaborator, not this object's registers). -/
def transfer_avg (avg_maxlen : ℕ) (address : ℤ) (length : ℕ)
    (avg_buff : List (ℤ × ℤ)) (transferred : ℕ) (s : AvgBufState) :
    AvgBufState × Except QickError (List (ℤ × ℤ)) :=
  if length ≥ avg_maxlen then (s, Except.error QickError.rangeError)
  else
    -- pad the transfer size to an even number
    let transferlen := length + length % 2
    let s1 := { s with avg_dr_addr_reg := address,
                       avg_dr_len_reg := (transferlen : ℤ),
                       avg_dr_start_reg := 1 }
    -- DMA runs here; the avg sample size is 8 bytes (int64 = one I,Q pair)
    let s2 := { s1 with avg_dr_start_reg := 0 }
    if transferred ≠ transferlen * 8 then (s2, Except.error QickError.transferError)
    else (s2, Except.ok (avg_buff.take length))

/-- `transfer_buf` (lines 1006-1056). Identical shape to `transfer_avg` but the
raw sample size is 4 bytes (int32 = one I,Q pair), and the source checks the
transferred byte count before clearing `buf_dr_start_reg`. -/
def transfer_buf (buf_maxlen : ℕ) (address : ℤ) (length : ℕ)
    (buf_buff : List (ℤ × ℤ)) (transferred : ℕ) (s : AvgBufState) :
    AvgBufState × Except QickError (List (ℤ × ℤ)) :=
  if length ≥ buf_maxlen then (s, Except.error QickError.rangeError)
  else
    let transferlen := length + length % 2
    let s1 := { s with buf_dr_addr_reg := address,
                       buf_dr_len_reg := (transferlen : ℤ),
                       buf_dr_start_reg := 1 }
    if transferred ≠ transferlen * 4 then (s1, Except.error QickError.transferError)
    else ({ s1 with buf_dr_start_reg := 0 }, Except.ok (buf_buff.take length))

/-! ## Nyquist folding and PFB channel selection
(readout.py lines 284-293, identical in AxisPFBReadoutV2/V3/V4.set_freq) -/

/-- Nyquist zone index, 1-based: `nqz = int(ro_freq // (fs/2)) + 1`
(line 284). Python `//` on reals is the floor. -/
def nyquistZone (f fs : ℚ) : ℤ :=
  Int.floor (f / (fs / 2)) + 1

/-- Nyquist folding (lines 284-286): negate the frequency exactly when its
Nyquist zone index is even. -/
def nyquistFold (f fs : ℚ) : ℚ :=
  if nyquistZone f fs % 2 = 0 then -f else f

/-- Embedding of `np.round`: round half to even (banker's rounding), which is
what numpy does at exact halves. -/
def roundHalfEven (q : ℚ) : ℤ :=
  if Int.fract q < 1 / 2 then Int.floor q
  else if 1 / 2 < Int.fract q then Int.floor q + 1
  else if Int.floor q % 2 = 0 then Int.floor q else Int.floor q + 1

/-- PFB channel selection (lines 291-293):
`f_steps = int(np.round(ro_freq/(f_dds/2)))`,
`f_dds_residual = ro_freq - f_steps*(f_dds/2)`,
`in_ch = (CH_OFFSET + f_steps) % N`.
Returns `(f_steps, residual, in_ch)`. Python `%` with a positive modulus is
Int.emod. -/
def pfb_select (ro_freq f_dds : ℚ) (chOffset N : ℤ) : ℤ × ℚ × ℤ :=
  let f_steps := roundHalfEven (ro_freq / (f_dds / 2))
  let f_res := ro_freq - (f_steps : ℚ) * (f_dds / 2)
  let in_ch := (chOffset + f_steps) % N
  (f_steps, f_res, in_ch)

/-! ## AxisPFBReadoutV2 (readout.py lines 167-314)

8 PFB channels, 4 outputs, CH_OFFSET = 4. `ch_freqs` and `out_chs` are the
Python dicts tracking committed tuning words and output bindings; a channel
absent from the dicts is `none`. `freq_regs` are FREQ0..FREQ7, `chsel_regs`
are CH0SEL..CH3SEL. -/

structure PFBv2State where
  ch_freqs : Fin 8 → Option ℤ
  out_chs : Fin 8 → Option (Fin 4)
  freq_regs : Fin 8 → ℤ
  chsel_regs : Fin 4 → ℤ

/-- State after `initialize`: empty dicts, registers at reset value 0. -/
def pfbv2Init : PFBv2State :=
  ⟨fun _ => none, fun _ => none, fun _ => 0, fun _ => 0⟩

/-- The commit part of `AxisPFBReadoutV2.set_freq_int` (lines 309-314):
record the tuning word and output binding, wire the selected PFB channel to
the output, and program the channel's DDS frequency. -/
def pfbv2_commit (f_int : ℤ) (in_ch : Fin 8) (out_ch : Fin 4) (s : PFBv2State) :
    PFBv2State :=
  { s with
    ch_freqs := Function.update s.ch_freqs in_ch (some f_int),
    out_chs := Function.update s.out_chs in_ch (some out_ch),
    chsel_regs := Function.update s.chsel_regs out_ch ((in_ch : ℕ) : ℤ),
    freq_regs := Function.update s.freq_regs in_ch f_int }

/-- `AxisPFBReadoutV2.set_freq_int` (lines 299-314): raise a collision error
when the PFB channel is already committed to a different tuning word (before
any write), otherwise commit. -/
def pfbv2_set_freq_int (f_int : ℤ) (in_ch : Fin 8) (out_ch : Fin 4)
    (s : PFBv2State) : PFBv2State × Option QickError :=
  match s.ch_freqs in_ch with
  | some w =>
    if f_int ≠ w then (s, some QickError.collisionError)
    else (pfbv2_commit f_int in_ch out_ch s, none)
  | none => (pfbv2_commit f_int in_ch out_ch s, none)

/-! ## AxisPFBReadoutV3 / V4 (readout.py lines 460-487 and 645-672)

The two wide variants differ only in NOUT (4 vs 8); the set_freq_int bodies
are identical, so one definition parametric in N and NOUT embeds both.
Registers are keyed by the output index. L_PFB = 8 in both. -/

structure PFBWideState where
  id_regs : ℤ → ℤ
  freq_regs : ℤ → ℤ
  phase_regs : ℤ → ℤ

/-- Wide-variant register file with all registers at 0. -/
def pfbWideInit : PFBWideState :=
  ⟨fun _ => 0, fun _ => 0, fun _ => 0⟩

/-- `AxisPFBReadoutV3.set_freq_int` / `AxisPFBReadoutV4.set_freq_int`:
check the PFB channel range, serialize the channel index as
`id_val = (index << 8) + packet` with `packet = pfb_ch / 8` (int() of a true
division of nonnegative ints is the floor) and `index = pfb_ch % 8`, check the
output range, then write the id, frequency, and phase registers. `<< 8` on a
nonnegative int is multiplication by 2^8. -/
def pfb_wide_set_freq_int (N NOUT : ℤ) (f_int pfb_ch out_ch : ℤ)
    (s : PFBWideState) : PFBWideState × Option QickError :=
  if 0 ≤ pfb_ch ∧ pfb_ch < N then
    let packet := pfb_ch / 8
    let index := pfb_ch % 8
    let id_val := index * 2 ^ 8 + packet
    if 0 ≤ out_ch ∧ out_ch < NOUT then
      ({ s with
          id_regs := Function.update s.id_regs out_ch id_val,
          freq_regs := Function.update s.freq_regs out_ch f_int,
          phase_regs := Function.update s.phase_regs out_ch 0 }, none)
    else (s, some QickError.rangeError)
  else (s, some QickError.rangeError)

/-- The spec's serialization formula for the wide variants, as written:
`(lane << 8) | packet` with `packet = c div LANES`, `lane = c mod LANES`,
LANES = 8, on the natural-number channel index. -/
def specPackId (c : ℕ) : ℕ :=
  ((c % 8) <<< 8) ||| (c / 8)

/-! ## AxisBufferDdrV1 (readout.py lines 1201-1368)

The DDR ring buffer. `ddr4_array` is a uint32 view of the DDR memory; one
uint32 element is one (I, Q) int16 pair, so we model the memory as a list with
one entry per sample pair. -/

/-- `junk_len` generic (line 1251): `50*DATA_WIDTH//32 + 1`. -/
def ddr_junk_len (data_width : ℕ) : ℕ :=
  50 * data_width / 32 + 1

/-- The window bounds computed by `get_mem` (lines 1346-1352): when `start` is
omitted it defaults to `junk_len` and the end is `nt*burst_len`; when `start`
is given the end is `start + nt*burst_len`. -/
def ddr_get_mem_bounds (junkLen burstLen nt : ℕ) (start : Option ℕ) : ℕ × ℕ :=
  match start with
  | none => (junkLen, nt * burstLen)
  | some st => (st, st + nt * burstLen)

/-- The pad/copy/trim slice of `get_mem` (lines 1354-1361):
widen `[start, stop)` outward to even boundaries, copy that range, then trim
the padding back off. Python slice `a[i:j]` is `(a.drop i).take (j-i)` (numpy
clips out-of-range bounds the same way drop/take do). -/
def get_mem_window (mem : List ℤ) (start stop : ℕ) : List ℤ :=
  let length := stop - start
  let buf_copy := (mem.drop (start - start % 2)).take
    (stop + stop % 2 - (start - start % 2))
  (buf_copy.drop (start % 2)).take length

/-- `AxisBufferDdrV1.get_mem` (lines 1346-1361): bounds then pad/copy/trim. -/
def ddr_get_mem (mem : List ℤ) (junkLen burstLen nt : ℕ) (start : Option ℕ) :
    List ℤ :=
  let b := ddr_get_mem_bounds junkLen burstLen nt start
  get_mem_window mem b.1 b.2

/-- One register write performed by `arm` via `wlen`/`wstop`/`wstart`. -/
inductive DdrRegWrite where
  | wnburst (v : ℤ)
  | wstart (v : ℤ)
deriving DecidableEq, Repr

/-- `AxisBufferDdrV1.arm` (lines 1363-1368): raise a capacity error when
`nt > maxlen // burst_len` and `force_overwrite` is not set; otherwise perform
`wlen(nt)` (program the burst count), `wstop()`, `wstart()` in that order.
The result is the ordered trace of register writes. -/
def ddr_arm (maxlen burstLen nt : ℕ) (force_overwrite : Bool) :
    List DdrRegWrite × Option QickError :=
  if nt > maxlen / burstLen ∧ force_overwrite = false then
    ([], some QickError.capacityError)
  else
    ([DdrRegWrite.wnburst (nt : ℤ), DdrRegWrite.wstart 0, DdrRegWrite.wstart 1],
     none)

/-! ## Claim theorems -/

/-- Claim C1, counterexample: on a unit with `avg_maxlen = 1024`,
`config_avg(address=0, length=1024)` does not fail with a range error — the
source performs no range check in `config_avg` — and it records the window,
contradicting the claim that a configure call with `length >= avg_maxlen`
fails and leaves the capture-window registers unchanged. -/
theorem claim_C1_cex :
    ¬ (config_avg 0 1024 avgBufInit).2 = some QickError.rangeError ∧
    (config_avg 0 1024 avgBufInit).2 = none ∧
    (config_avg 0 1024 avgBufInit).1.avg_len_reg = 1024 := by
  refine ⟨by decide, rfl, rfl⟩

/-- Claim C1, amended: `config_buf` with `length >= buf_maxlen` fails with a
range error and leaves the buf capture-window registers unchanged, and with
`length < buf_maxlen` records the window; `config_avg` performs no range check
and always records the window; the avg-side range check is instead enforced by
`transfer_avg`, which fails with a range error (touching no register) when
`length >= avg_maxlen`. -/
theorem claim_C1_thm (buf_maxlen avg_maxlen : ℕ) (address : ℤ) (length : ℕ)
    (s : AvgBufState) (abuff : List (ℤ × ℤ)) (tb : ℕ) :
    ((config_avg address length s).2 = none ∧
      (config_avg address length s).1.avg_addr_reg = address ∧
      (config_avg address length s).1.avg_len_reg = (length : ℤ)) ∧
    (buf_maxlen ≤ length →
      (config_buf buf_maxlen address length s).2 = some QickError.rangeError ∧
      (config_buf buf_maxlen address length s).1.buf_addr_reg = s.buf_addr_reg ∧
      (config_buf buf_maxlen address length s).1.buf_len_reg = s.buf_len_reg) ∧
    (length < buf_maxlen →
      (config_buf buf_maxlen address length s).2 = none ∧
      (config_buf buf_maxlen address length s).1.buf_addr_reg = address ∧
      (config_buf buf_maxlen address length s).1.buf_len_reg = (length : ℤ)) ∧
    (avg_maxlen ≤ length →
      transfer_avg avg_maxlen address length abuff tb s =
        (s, Except.error QickError.rangeError)) := by
  refine ⟨⟨rfl, rfl, rfl⟩, ?_, ?_, ?_⟩
  · intro h
    simp [config_buf, disable_buf, h]
  · intro h
    have h' : ¬ (length ≥ buf_maxlen) := by omega
    simp [config_buf, disable_buf, h']
  · intro h
    simp [transfer_avg, h]

/-- Claim C1, witness for the amended theorem at concrete inputs
(`buf_maxlen = avg_maxlen = 1024`). -/
theorem claim_C1_wit :
    (config_avg 0 100 avgBufInit).2 = none ∧
    (config_buf 1024 0 1024 avgBufInit).2 = some QickError.rangeError ∧
    (config_buf 1024 0 100 avgBufInit).2 = none ∧
    (transfer_avg 1024 0 1024 [] 0 avgBufInit).2 =
      Except.error QickError.rangeError := by
  have h1 := claim_C1_thm 1024 1024 0 1024 avgBufInit [] 0
  have h2 := claim_C1_thm 1024 1024 0 100 avgBufInit [] 0
  exact ⟨h2.1.1, (h1.2.1 (by omega)).1, (h2.2.2.1 (by omega)).1,
    by rw [h1.2.2.2 (by omega)]⟩

/-- Claim C3: with an in-range length, `transfer_avg` fails with a
transfer-integrity error and returns no sample array exactly when the DMA
moved a byte count different from the padded request (`transferlen * 8` for
avg, `transferlen * 4` for buf); on a matching count it returns the samples. -/
theorem claim_C3_thm (avg_maxlen buf_maxlen : ℕ) (address : ℤ) (length : ℕ)
    (abuff bbuff : List (ℤ × ℤ)) (tba tbb : ℕ) (s : AvgBufState)
    (ha : length < avg_maxlen) (hb : length < buf_maxlen) :
    (tba ≠ (length + length % 2) * 8 →
      (transfer_avg avg_maxlen address length abuff tba s).2 =
        Except.error QickError.transferError) ∧
    (tba = (length + length % 2) * 8 →
      (transfer_avg avg_maxlen address length abuff tba s).2 =
        Except.ok (abuff.take length)) ∧
    (tbb ≠ (length + length % 2) * 4 →
      (transfer_buf buf_maxlen address length bbuff tbb s).2 =
        Except.error QickError.transferError) ∧
    (tbb = (length + length % 2) * 4 →
      (transfer_buf buf_maxlen address length bbuff tbb s).2 =
        Except.ok (bbuff.take length)) := by
  have ha' : ¬ (length ≥ avg_maxlen) := by omega
  have hb' : ¬ (length ≥ buf_maxlen) := by omega
  refine ⟨?_, ?_, ?_, ?_⟩ <;> intro h <;>
    simp [transfer_avg, transfer_buf, ha', hb', h]

/-- Claim C3, witness: length 100 (padded length 100, 800 avg bytes, 400 buf
bytes); a short DMA count raises, a matching one returns the data. -/
theorem claim_C3_wit :
    (transfer_avg 1024 0 100 [] 798 avgBufInit).2 =
      Except.error QickError.transferError ∧
    (transfer_avg 1024 0 100 [] 800 avgBufInit).2 = Except.ok [] ∧
    (transfer_buf 1024 0 100 [] 398 avgBufInit).2 =
      Except.error QickError.transferError ∧
    (transfer_buf 1024 0 100 [] 400 avgBufInit).2 = Except.ok [] := by
  have h1 := claim_C3_thm 1024 1024 0 100 [] [] 798 398 avgBufInit
    (by omega) (by omega)
  have h2 := claim_C3_thm 1024 1024 0 100 [] [] 800 400 avgBufInit
    (by omega) (by omega)
  exact ⟨h1.1 (by omega), by simpa using h2.2.1 (by omega),
    h1.2.2.1 (by omega), by simpa using h2.2.2.2 (by omega)⟩

/-- Claim C4: with an in-range length, `transfer_avg`/`transfer_buf` compute
the DMA length as the request padded up to an even sample count
(`length + length % 2`), program that padded value into the transfer-window
length register, and return exactly the originally requested number of
(I, Q) pairs. -/
theorem claim_C4_thm (avg_maxlen buf_maxlen : ℕ) (address : ℤ) (length : ℕ)
    (abuff bbuff : List (ℤ × ℤ)) (s : AvgBufState)
    (ha : length < avg_maxlen) (hb : length < buf_maxlen)
    (hal : length ≤ abuff.length) (hbl : length ≤ bbuff.length) :
    2 ∣ (length + length % 2) ∧
    (transfer_avg avg_maxlen address length abuff
        ((length + length % 2) * 8) s).1.avg_dr_len_reg =
      ((length + length % 2 : ℕ) : ℤ) ∧
    (∃ d, (transfer_avg avg_maxlen address length abuff
        ((length + length % 2) * 8) s).2 = Except.ok d ∧ d.length = length) ∧
    (transfer_buf buf_maxlen address length bbuff
        ((length + length % 2) * 4) s).1.buf_dr_len_reg =
      ((length + length % 2 : ℕ) : ℤ) ∧
    (∃ d, (transfer_buf buf_maxlen address length bbuff
        ((length + length % 2) * 4) s).2 = Except.ok d ∧ d.length = length) := by
  have ha' : ¬ (length ≥ avg_maxlen) := by omega
  have hb' : ¬ (length ≥ buf_maxlen) := by omega
  refine ⟨by omega, ?_, ?_, ?_, ?_⟩
  · simp [transfer_avg, ha']
  · refine ⟨abuff.take length, ?_, ?_⟩
    · simp [transfer_avg, ha']
    · simp [List.length_take]
      omega
  · simp [transfer_buf, hb']
  · refine ⟨bbuff.take length, ?_, ?_⟩
    · simp [transfer_buf, hb']
    · simp [List.length_take]
      omega

/-- Claim C4, witness: the spec's odd length 101 pads to 102 samples in the
length register while 101 pairs come back. -/
theorem claim_C4_wit :
    (transfer_avg 1024 0 101 (List.replicate 101 ((0 : ℤ), (0 : ℤ)))
        816 avgBufInit).1.avg_dr_len_reg = 102 ∧
    (∃ d, (transfer_avg 1024 0 101 (List.replicate 101 ((0 : ℤ), (0 : ℤ)))
        816 avgBufInit).2 = Except.ok d ∧ d.length = 101) := by
  have h := claim_C4_thm 1024 1024 0 101
    (List.replicate 101 ((0 : ℤ), (0 : ℤ)))
    (List.replicate 101 ((0 : ℤ), (0 : ℤ))) avgBufInit
    (by omega) (by omega) (by simp) (by simp)
  exact ⟨by simpa using h.2.1, by simpa using h.2.2.1⟩

/-- Claim C2: if the target PFB channel already holds a committed tuning word
different from the new one, `set_freq_int` raises a collision error with the
whole state (committed word, output binding, frequency registers) unchanged;
if the committed word equals the new one the call succeeds, preserving the
word and binding the new logical output to the channel. -/
theorem claim_C2_thm (s : PFBv2State) (f_int w : ℤ) (in_ch : Fin 8)
    (out_ch : Fin 4) (hw : s.ch_freqs in_ch = some w) :
    (f_int ≠ w →
      pfbv2_set_freq_int f_int in_ch out_ch s =
        (s, some QickError.collisionError)) ∧
    (f_int = w →
      (pfbv2_set_freq_int f_int in_ch out_ch s).2 = none ∧
      ((pfbv2_set_freq_int f_int in_ch out_ch s).1).ch_freqs in_ch = some w ∧
      ((pfbv2_set_freq_int f_int in_ch out_ch s).1).out_chs in_ch =
        some out_ch) := by
  unfold pfbv2_set_freq_int
  rw [hw]
  constructor
  · intro h
    simp [h]
  · intro h
    subst h
    simp [pfbv2_commit]

/-- Claim C2, witness: commit word 5 on channel 2 for output 0; requesting
word 7 on channel 2 collides and changes nothing, requesting word 5 again for
output 3 succeeds (fan-out). -/
theorem claim_C2_wit :
    pfbv2_set_freq_int 7 2 1 (pfbv2_commit 5 2 0 pfbv2Init) =
      (pfbv2_commit 5 2 0 pfbv2Init, some QickError.collisionError) ∧
    (pfbv2_set_freq_int 5 2 3 (pfbv2_commit 5 2 0 pfbv2Init)).2 = none ∧
    ((pfbv2_set_freq_int 5 2 3 (pfbv2_commit 5 2 0 pfbv2Init)).1).out_chs 2 =
      some 3 := by
  have hcf : (pfbv2_commit 5 2 0 pfbv2Init).ch_freqs 2 = some 5 := by
    simp [pfbv2_commit, pfbv2Init]
  have h1 := claim_C2_thm _ 7 5 2 1 hcf
  have h2 := claim_C2_thm _ 5 5 2 3 hcf
  exact ⟨h1.1 (by omega), (h2.2 rfl).1, (h2.2 rfl).2.2⟩

/-- Claim C5, counterexample: with `fs = 100` the code computes the zone of
`f = 120` as `floor(120/50) + 1 = 3` (odd), so the frequency is not folded to
`-120`, contradicting the claim's example that 120 is in zone 2 and folds. -/
theorem claim_C5_cex :
    ¬ (nyquistZone 120 100 = 2 ∧ nyquistFold 120 100 = -120) := by
  intro h
  have h3 : nyquistZone 120 100 = 3 := by
    unfold nyquistZone
    norm_num
  rw [h3] at h
  exact absurd h.1 (by omega)

/-- Claim C5, amended: `set_freq` computes `nqz = floor(f / (fs/2)) + 1` and
negates exactly when `nqz` is even; for `fs = 100`, `f = 120` is in zone 3 and
keeps its sign, `f = 220` is in zone 5 and keeps its sign, and a frequency in
an even zone such as `f = 70` (zone 2) folds to its negative. -/
theorem claim_C5_thm :
    (∀ f fs : ℚ,
      nyquistFold f fs =
        if (Int.floor (f / (fs / 2)) + 1) % 2 = 0 then -f else f) ∧
    nyquistZone 120 100 = 3 ∧ nyquistFold 120 100 = 120 ∧
    nyquistZone 220 100 = 5 ∧ nyquistFold 220 100 = 220 ∧
    nyquistZone 70 100 = 2 ∧ nyquistFold 70 100 = -70 := by
  have z120 : nyquistZone 120 100 = 3 := by unfold nyquistZone; norm_num
  have z220 : nyquistZone 220 100 = 5 := by unfold nyquistZone; norm_num
  have z70 : nyquistZone 70 100 = 2 := by unfold nyquistZone; norm_num
  refine ⟨fun f fs => rfl, z120, ?_, z220, ?_, z70, ?_⟩
  · rw [nyquistFold, z120]
    norm_num
  · rw [nyquistFold, z220]
    norm_num
  · rw [nyquistFold, z70]
    norm_num

/-- Claim C6: the PFB channel selection computes
`f_steps = round(folded/(f_dds/2))` (numpy rounding), the fine-mixer residual
`folded - f_steps*(f_dds/2)`, and the mixing channel
`(CH_OFFSET + f_steps) mod N`; with `N = 8`, `CH_OFFSET = 4`, `f_dds = 100`, a
folded frequency of 55 gives `f_steps = 1`, residual 5, and channel 5. -/
theorem claim_C6_thm :
    (∀ folded f_dds : ℚ,
      pfb_select folded f_dds 4 8 =
        (roundHalfEven (folded / (f_dds / 2)),
         folded - (roundHalfEven (folded / (f_dds / 2)) : ℚ) * (f_dds / 2),
         (4 + roundHalfEven (folded / (f_dds / 2))) % 8)) ∧
    (pfb_select 55 100 4 8).1 = 1 ∧
    (pfb_select 55 100 4 8).2.1 = 5 ∧
    (pfb_select 55 100 4 8).2.2 = 5 := by
  have hq : (55 / 50 : ℚ) = 11 / 10 := by norm_num
  have hr : roundHalfEven (11 / 10 : ℚ) = 1 := by
    unfold roundHalfEven
    norm_num [Int.fract, Int.floor_eq_iff]
  refine ⟨fun _ _ => rfl, ?_, ?_, ?_⟩ <;>
    simp [pfb_select, hq, hr] <;> norm_num [hr]

/-- Disjoint-bit packing: or-ing a value shifted left by 8 with an 8-bit value
is the same as adding them, which bridges the spec's `(lane << 8) | packet`
and the source's `(index << 8) + packet`. -/
lemma shiftLeft_lor_eq_add (a b : ℕ) (hb : b < 2 ^ 8) :
    (a <<< 8) ||| b = a * 2 ^ 8 + b := by
  rw [Nat.shiftLeft_eq, Nat.mul_comm]
  apply Nat.eq_of_testBit_eq
  intro j
  rw [Nat.testBit_lor, Nat.testBit_mul_pow_two_add a hb j,
    Nat.testBit_mul_pow_two]
  by_cases hj : j < 8
  · simp [hj, Nat.not_le.mpr hj]
  · have hb' : b.testBit j = false := by
      apply Nat.testBit_lt_two_pow
      calc b < 2 ^ 8 := hb
        _ ≤ 2 ^ j := Nat.pow_le_pow_right (by omega) (by omega)
    simp [hj, Nat.le_of_not_lt hj, hb']

/-- The spec's packing agrees with plain arithmetic for any channel index
whose packet field fits in 8 bits. -/
lemma specPackId_eq (c : ℕ) (hc : c < 2048) :
    specPackId c = (c % 8) * 2 ^ 8 + c / 8 :=
  shiftLeft_lor_eq_add _ _ (by omega)

/-- Claim C7: in the wide variants, for an in-range PFB channel the id
register receives `(lane << 8) | packet` with `lane = c mod 8`,
`packet = c div 8`; for an output index outside `[0, NOUT)` the call fails
with a range error and writes no register. -/
theorem claim_C7_thm (N NOUT : ℤ) (f_int pfb_ch out_ch : ℤ) (s : PFBWideState)
    (hch : 0 ≤ pfb_ch ∧ pfb_ch < N) (hN : N ≤ 2048) :
    (0 ≤ out_ch ∧ out_ch < NOUT →
      (pfb_wide_set_freq_int N NOUT f_int pfb_ch out_ch s).2 = none ∧
      ((pfb_wide_set_freq_int N NOUT f_int pfb_ch out_ch s).1).id_regs out_ch =
        (specPackId pfb_ch.toNat : ℤ)) ∧
    (¬ (0 ≤ out_ch ∧ out_ch < NOUT) →
      pfb_wide_set_freq_int N NOUT f_int pfb_ch out_ch s =
        (s, some QickError.rangeError)) := by
  have hct : pfb_ch.toNat < 2048 := by omega
  have hpack := specPackId_eq pfb_ch.toNat hct
  constructor
  · intro hout
    simp only [pfb_wide_set_freq_int, if_pos hch, if_pos hout]
    refine ⟨trivial, ?_⟩
    simp only [Function.update_same, hpack]
    have h256 : (2 : ℤ) ^ 8 = 256 := by norm_num
    have h256n : (2 : ℕ) ^ 8 = 256 := by norm_num
    rw [h256]
    push_cast [h256n]
    omega
  · intro hout
    simp only [pfb_wide_set_freq_int, if_pos hch, if_neg hout]

/-- Claim C7, witness: N = 64 with NOUT = 4 (V3) and NOUT = 8 (V4); channel 13
packs to id `5*256 + 1 = 1281` on a valid output, and an out-of-range output
index fails with a range error leaving the state unchanged. -/
theorem claim_C7_wit :
    ((pfb_wide_set_freq_int 64 4 123 13 2 pfbWideInit).2 = none ∧
      ((pfb_wide_set_freq_int 64 4 123 13 2 pfbWideInit).1).id_regs 2 = 1281) ∧
    pfb_wide_set_freq_int 64 4 123 13 4 pfbWideInit =
      (pfbWideInit, some QickError.rangeError) ∧
    (pfb_wide_set_freq_int 64 8 123 13 7 pfbWideInit).2 = none := by
  have h1 := claim_C7_thm 64 4 123 13 2 pfbWideInit (by omega) (by omega)
  have h2 := claim_C7_thm 64 4 123 13 4 pfbWideInit (by omega) (by omega)
  have h3 := claim_C7_thm 64 8 123 13 7 pfbWideInit (by omega) (by omega)
  refine ⟨⟨(h1.1 (by omega)).1, ?_⟩, h2.2 (by omega), (h3.1 (by omega)).1⟩
  have hid := (h1.1 (by omega)).2
  rw [hid]
  decide

/-- Core fact about the ring-buffer pad/copy/trim slice: under in-range
bounds it returns exactly the samples of `[start, stop)`, so its length is
`stop - start` regardless of the alignment padding. -/
lemma get_mem_window_spec (mem : List ℤ) (start stop : ℕ)
    (h1 : start ≤ stop) (h2 : stop ≤ mem.length) :
    get_mem_window mem start stop = (mem.drop start).take (stop - start) ∧
    (get_mem_window mem start stop).length = stop - start := by
  have e1 : start - start % 2 + start % 2 = start := by omega
  have e2 : min (stop - start)
      (stop + stop % 2 - (start - start % 2) - start % 2) = stop - start := by
    omega
  have key : get_mem_window mem start stop =
      (mem.drop start).take (stop - start) := by
    simp only [get_mem_window]
    rw [List.drop_take, List.drop_drop, List.take_take, e1, e2]
  refine ⟨key, ?_⟩
  rw [key, List.length_take, List.length_drop]
  omega

/-- Claim C8: `get_mem` widens the requested window `[start, stop)` outward to
even boundaries, copies, and trims back, so it returns exactly the samples of
`[start, stop)` — in particular exactly `stop - start` sample pairs. -/
theorem claim_C8_thm (mem : List ℤ) (start stop : ℕ)
    (h1 : start ≤ stop) (h2 : stop ≤ mem.length) :
    get_mem_window mem start stop = (mem.drop start).take (stop - start) ∧
    (get_mem_window mem start stop).length = stop - start :=
  get_mem_window_spec mem start stop h1 h2

/-- Claim C8, witness: the spec's `read(start=7, end=50)` example on a
50-sample memory returns exactly 43 sample pairs. -/
theorem claim_C8_wit :
    get_mem_window (List.replicate 50 (0 : ℤ)) 7 50 =
      ((List.replicate 50 (0 : ℤ)).drop 7).take 43 ∧
    (get_mem_window (List.replicate 50 (0 : ℤ)) 7 50).length = 43 := by
  have h := claim_C8_thm (List.replicate 50 (0 : ℤ)) 7 50 (by omega) (by simp)
  exact ⟨h.1, h.2⟩

/-- Claim C9: `arm(nt, force_overwrite)` raises a capacity error exactly when
`nt * burst_len` exceeds the ring capacity and `force_overwrite` is unset
(the source condition `nt > maxlen // burst_len` is equivalent for a positive
burst length); otherwise it programs the burst-count register to `nt`, stops
the write side, then starts it, in that order. -/
theorem claim_C9_thm (maxlen burstLen nt : ℕ) (fo : Bool)
    (hbl : 0 < burstLen) :
    ((ddr_arm maxlen burstLen nt fo).2 = some QickError.capacityError ↔
      maxlen < nt * burstLen ∧ fo = false) ∧
    (¬ (maxlen < nt * burstLen ∧ fo = false) →
      ddr_arm maxlen burstLen nt fo =
        ([DdrRegWrite.wnburst (nt : ℤ), DdrRegWrite.wstart 0,
          DdrRegWrite.wstart 1], none)) := by
  have key : maxlen / burstLen < nt ↔ maxlen < nt * burstLen :=
    Nat.div_lt_iff_lt_mul hbl
  unfold ddr_arm
  by_cases h : maxlen / burstLen < nt ∧ fo = false
  · rw [if_pos h]
    constructor
    · exact ⟨fun _ => ⟨key.mp h.1, h.2⟩, fun _ => rfl⟩
    · intro hn
      exact absurd ⟨key.mp h.1, h.2⟩ hn
  · rw [if_neg h]
    constructor
    · constructor
      · intro hc
        exact absurd hc (by simp)
      · intro hc
        exact absurd ⟨key.mpr hc.1, hc.2⟩ h
    · intro
      rfl

/-- Claim C9, witness: capacity 100 samples, bursts of 8 samples: 13 bursts
(104 samples) overflow and raise unless forced, 12 bursts (96 samples) arm
with the write trace wnburst := 12, wstart := 0, wstart := 1. -/
theorem claim_C9_wit :
    (ddr_arm 100 8 13 false).2 = some QickError.capacityError ∧
    ddr_arm 100 8 12 false =
      ([DdrRegWrite.wnburst 12, DdrRegWrite.wstart 0, DdrRegWrite.wstart 1],
        none) ∧
    ddr_arm 100 8 13 true =
      ([DdrRegWrite.wnburst 13, DdrRegWrite.wstart 0, DdrRegWrite.wstart 1],
        none) := by
  have h1 := claim_C9_thm 100 8 13 false (by omega)
  have h2 := claim_C9_thm 100 8 12 false (by omega)
  have h3 := claim_C9_thm 100 8 13 true (by omega)
  refine ⟨h1.1.mpr ⟨by omega, rfl⟩, h2.2 ?_, h3.2 (by simp)⟩
  intro hc
  exact absurd hc.1 (by omega)

/-- Claim C10: the end offset of `get_mem(nt, start)` depends on whether
`start` was supplied: the default window is `[junk_len, nt*burst_len)` with
`nt*burst_len - junk_len` sample pairs, but an explicit `start = junk_len`
gives `[junk_len, junk_len + nt*burst_len)` with `nt*burst_len` pairs, so the
two calls return windows of different endpoint and length for every
`nt > 0`. -/
theorem claim_C10_thm (mem : List ℤ) (data_width burstLen nt : ℕ)
    (_hnt : 0 < nt)
    (hj : ddr_junk_len data_width ≤ nt * burstLen)
    (hm : nt * burstLen + ddr_junk_len data_width ≤ mem.length) :
    ddr_get_mem_bounds (ddr_junk_len data_width) burstLen nt none =
      (ddr_junk_len data_width, nt * burstLen) ∧
    ddr_get_mem_bounds (ddr_junk_len data_width) burstLen nt
        (some (ddr_junk_len data_width)) =
      (ddr_junk_len data_width, ddr_junk_len data_width + nt * burstLen) ∧
    (ddr_get_mem mem (ddr_junk_len data_width) burstLen nt none).length =
      nt * burstLen - ddr_junk_len data_width ∧
    (ddr_get_mem mem (ddr_junk_len data_width) burstLen nt
        (some (ddr_junk_len data_width))).length = nt * burstLen ∧
    nt * burstLen - ddr_junk_len data_width ≠ nt * burstLen ∧
    nt * burstLen ≠ ddr_junk_len data_width + nt * burstLen := by
  have hjp : 0 < ddr_junk_len data_width := by
    unfold ddr_junk_len
    omega
  refine ⟨rfl, rfl, ?_, ?_, by omega, by omega⟩
  · have h := (get_mem_window_spec mem (ddr_junk_len data_width)
      (nt * burstLen) hj (by omega)).2
    simpa [ddr_get_mem, ddr_get_mem_bounds] using h
  · have h := (get_mem_window_spec mem (ddr_junk_len data_width)
      (ddr_junk_len data_width + nt * burstLen) (by omega) (by omega)).2
    have e : ddr_junk_len data_width + nt * burstLen -
        ddr_junk_len data_width = nt * burstLen := by omega
    simpa [ddr_get_mem, ddr_get_mem_bounds, e] using h

/-- Claim C10, witness: DATA_WIDTH = 32 gives junk_len = 51; with bursts of 10
samples and nt = 6 the default read returns 9 pairs ending at sample 60, the
explicit `start = junk_len` read returns 60 pairs ending at sample 111. -/
theorem claim_C10_wit :
    (ddr_get_mem (List.replicate 111 (0 : ℤ)) (ddr_junk_len 32) 10 6
      none).length = 9 ∧
    (ddr_get_mem (List.replicate 111 (0 : ℤ)) (ddr_junk_len 32) 10 6
      (some (ddr_junk_len 32))).length = 60 ∧
    (6 * 10 - ddr_junk_len 32 ≠ 6 * 10) := by
  have h := claim_C10_thm (List.replicate 111 (0 : ℤ)) 32 10 6
    (by omega) (by norm_num [ddr_junk_len]) (by simp [ddr_junk_len])
  refine ⟨?_, ?_, h.2.2.2.2.1⟩
  · have := h.2.2.1
    norm_num [ddr_junk_len] at this ⊢
    exact this
  · have := h.2.2.2.1
    norm_num at this
    exact this
